import Mathlib

/-!
Shallow embedding of `src/mentoringbot.py` (class `MentorChatBot`) and
verification of its session/queue-broker behaviour.

Modelling conventions:
* A Python `dict` is modelled as an insertion-ordered association list
  (`dinsert` updates the first matching key in place or appends a fresh
  entry at the end, exactly like CPython dict assignment; `dlookup` is
  `dict.get`; `derase` is `dict.pop`).
* Telegram identities are natural numbers.  Telegram user ids are
  positive, which matters because the source tests ids for Python
  truthiness (`if user_id:`); reachability therefore only admits events
  whose sender id is positive.
* Every `message.answer` / `bot.send_message` / `callback.answer` of the
  source is modelled as an element of the `Out` type carrying the
  recipient and the payload data that the source interpolates.
* Handlers are pure functions `state → state × outputs`.
  `forward_to_mentor` returns an `Option` because the source performs an
  unguarded `self.history[uid]` subscript that raises `KeyError` when the
  key is missing; `none` models that uncaught exception.
-/

namespace Mentoring

/-- Ordered association list standing for a Python `dict`: update the first
occurrence of the key in place, otherwise append at the end. -/
def dinsert {α : Type} (k : Nat) (v : α) : List (Nat × α) → List (Nat × α)
  | [] => [(k, v)]
  | (k', v') :: rest => if k' = k then (k, v) :: rest else (k', v') :: dinsert k v rest

/-- Model of `dict.get`: value of the first entry with the given key. -/
def dlookup {α : Type} (k : Nat) : List (Nat × α) → Option α
  | [] => none
  | (k', v') :: rest => if k' = k then some v' else dlookup k rest

/-- Model of `dict.pop`: remove the first entry with the given key. -/
def derase {α : Type} (k : Nat) : List (Nat × α) → List (Nat × α)
  | [] => []
  | (k', v') :: rest => if k' = k then rest else (k', v') :: derase k rest

/-- Key list of an association list (Python dict iteration order). -/
def keys {α : Type} (l : List (Nat × α)) : List Nat := l.map Prod.fst

/-- Key insertion `self.awaiting_name[user_id] = True` on a dict used as a set: adding a key
that is already present leaves the key order unchanged. -/
def ainsert (i : Nat) (l : List Nat) : List Nat := if i ∈ l then l else l ++ [i]

/-- Python `str.strip()`: drop whitespace from both ends. -/
def pyStrip (t : String) : String :=
  ⟨((t.data.dropWhile Char.isWhitespace).reverse.dropWhile Char.isWhitespace).reverse⟩

/-- Python `text.startswith('/')`. -/
def startsWithSlash (t : String) : Bool :=
  match t.data with
  | [] => false
  | ch :: _ => ch = '/'

/-- Startup configuration (`MENTOR_ID`, `ACCESS_PASSWORD`). -/
structure Cfg where
  mentorId : Nat
  accessPassword : String
deriving DecidableEq

/-- The mutable state owned by `MentorChatBot.__init__`:
`users`, `sessions`, `waitlist`, `history`, `awaiting_name`. -/
structure BotState where
  users : List (Nat × String)
  sessions : List (Nat × Nat)
  waitlist : List Nat
  history : List (Nat × List String)
  awaiting : List Nat
deriving DecidableEq

/-- The freshly constructed bot: every container empty. -/
def initState : BotState := ⟨[], [], [], [], []⟩

/-- One outbound directive (recipient plus the data of the text the source
sends to that recipient). -/
inductive Out where
  | welcomeMentor (i : Nat)
  | welcomeRegistered (i : Nat)
  | welcomeNew (i : Nat)
  | enterPassword (i : Nat)
  | passwordOkMentor (i : Nat)
  | namePrompt (i : Nat)
  | passwordOkRegistered (i : Nat)
  | wrongPassword (i : Nat)
  | emptyNameReprompt (i : Nat)
  | customNameOk (i : Nat) (nm : String)
  | alreadyRegistered (i : Nat)
  | registerFirst (i : Nat)
  | queuedNotify (m : Nat) (uid : Nat) (nm : String)
  | alreadyQueued (i : Nat)
  | callNotify (m : Nat) (uid : Nat) (nm : String)
  | ack (i : Nat) (t : Option String)
  | anonOk (i : Nat)
  | enterNamePrompt (i : Nat)
  | joinNoRights (i : Nat)
  | finishCurrentFirst (i : Nat)
  | nobodyWaiting (i : Nat)
  | connectedMentor (i : Nat) (nm : Option String)
  | mentorJoined (uid : Nat)
  | noRightsAlert (i : Nat)
  | pleaseWait (i : Nat)
  | forwardToMentorMsg (m : Nat) (text : String)
  | noActiveUser (i : Nat)
  | forwardToUserMsg (uid : Nat) (text : String)
  | chatEndedUser (uid : Nat)
  | chatEndedMentor (i : Nat)
  | nextWaiting (m : Nat) (nm : Option String)
  | endNoRights (i : Nat)
  | noActiveChat (i : Nat)
deriving DecidableEq

/-- Handler `send_welcome` (lines 102-128): pure menu output, no state change. -/
def send_welcome (c : Cfg) (s : BotState) (i : Nat) : BotState × List Out :=
  if i = c.mentorId then (s, [Out.welcomeMentor i])
  else if i ∈ keys s.users then (s, [Out.welcomeRegistered i])
  else (s, [Out.welcomeNew i])

/-- Handler `check_password` (lines 136-165).  `uname` is
`message.from_user.username`; the source tests it for truthiness in the
mentor branch and for `is None` in the participant branch. -/
def check_password (c : Cfg) (s : BotState) (i : Nat) (uname : Option String)
    (text : String) : BotState × List Out :=
  if text = c.accessPassword then
    if i = c.mentorId then
      let nm :=
        match uname with
        | some u => if u = "" then "Ментор" else u
        | none => "Ментор"
      ({ s with users := dinsert i nm s.users, history := dinsert i [] s.history },
        [Out.passwordOkMentor i])
    else
      match uname with
      | none => (s, [Out.namePrompt i])
      | some u =>
        ({ s with users := dinsert i u s.users, history := dinsert i [] s.history },
          [Out.passwordOkRegistered i])
  else (s, [Out.wrongPassword i])

/-- Handler `set_custom_name` (lines 167-183): the chosen name is the stripped
message text, rejected when empty. -/
def set_custom_name (s : BotState) (i : Nat) (text : String) : BotState × List Out :=
  if i ∈ s.awaiting then
    let chosen := pyStrip text
    if chosen = "" then (s, [Out.emptyNameReprompt i])
    else
      ({ s with
          users := dinsert i chosen s.users,
          history := dinsert i [] s.history,
          awaiting := s.awaiting.erase i },
        [Out.customNameOk i chosen])
  else (s, [])

/-- Handler `waiting_message` (lines 185-193): notice only. -/
def waiting_message (s : BotState) (i : Nat) : BotState × List Out :=
  (s, [Out.alreadyRegistered i])

/-- Handler `call_mentor` (lines 195-222).  `self.users.get(user_id)` is tested for
truthiness, so a missing key and an empty stored name behave alike. -/
def call_mentor (c : Cfg) (s : BotState) (i : Nat) : BotState × List Out :=
  let username := (dlookup i s.users).getD ""
  if username = "" then (s, [Out.registerFirst i, Out.ack i none])
  else if c.mentorId ∈ keys s.sessions then
    if i ∉ s.waitlist then
      ({ s with waitlist := s.waitlist ++ [i] },
        [Out.queuedNotify c.mentorId i username, Out.ack i (some "queued")])
    else (s, [Out.alreadyQueued i, Out.ack i (some "queued")])
  else (s, [Out.callNotify c.mentorId i username, Out.ack i (some "sent")])

/-- Handler `use_anonymous` (lines 224-235): registers the sender unconditionally
under the fixed label; note that it never touches `awaiting_name`. -/
def use_anonymous (s : BotState) (i : Nat) : BotState × List Out :=
  ({ s with users := dinsert i "Аноним" s.users, history := dinsert i [] s.history },
    [Out.anonOk i, Out.ack i none])

/-- Handler `enter_custom_name` (lines 237-244). -/
def enter_custom_name (s : BotState) (i : Nat) : BotState × List Out :=
  ({ s with awaiting := ainsert i s.awaiting }, [Out.enterNamePrompt i, Out.ack i none])

/-- Lines 268-271 of `join_chat`: establish the symmetric pairing
(`sessions[mentor] = u` then `sessions[u] = mentor`) with a given
remaining waitlist, and notify both sides. -/
def pairWith (c : Cfg) (s : BotState) (u : Nat) (wl : List Nat) : BotState × List Out :=
  ({ s with
      sessions := dinsert u c.mentorId (dinsert c.mentorId u s.sessions),
      waitlist := wl },
    [Out.connectedMentor c.mentorId (dlookup u s.users), Out.mentorJoined u])

/-- Handler `join_chat` (lines 246-271).  The fallback candidate list is
`[uid for uid in self.users if uid not in self.sessions and uid != self.mentor_id]`
in dict (= registration) order. -/
def join_chat (c : Cfg) (s : BotState) (i : Nat) : BotState × List Out :=
  if i ≠ c.mentorId then (s, [Out.joinNoRights i])
  else if c.mentorId ∈ keys s.sessions then (s, [Out.finishCurrentFirst i])
  else
    match s.waitlist with
    | u :: rest => pairWith c s u rest
    | [] =>
      match (keys s.users).filter
          (fun u => decide (u ∉ keys s.sessions ∧ u ≠ c.mentorId)) with
      | [] => (s, [Out.nobodyWaiting i])
      | u :: _ => pairWith c s u s.waitlist

/-- Handler `forward_to_mentor` (lines 308-319).  The subscript
`self.history[uid]` is unguarded; a missing key raises `KeyError`,
modelled by `none`. -/
def forward_to_mentor (s : BotState) (i : Nat) (text : String) :
    Option (BotState × List Out) :=
  match dlookup i s.sessions with
  | none => some (s, [Out.pleaseWait i])
  | some m =>
    match dlookup i s.history with
    | none => none
    | some h =>
      some ({ s with history := dinsert i (h ++ ["👤 Участник: " ++ text]) s.history },
        [Out.forwardToMentorMsg m text])

/-- Handler `forward_to_user` (lines 321-333): `sessions.get(mentor_id)` tested for
truthiness, history updated through `setdefault`. -/
def forward_to_user (c : Cfg) (s : BotState) (text : String) : BotState × List Out :=
  if c.mentorId ∉ keys s.sessions then (s, [Out.noActiveUser c.mentorId])
  else
    match dlookup c.mentorId s.sessions with
    | none => (s, [Out.noActiveUser c.mentorId])
    | some u =>
      if u = 0 then (s, [Out.noActiveUser c.mentorId])
      else
        ({ s with history :=
            dinsert u ((dlookup u s.history).getD [] ++ ["👨‍🏫 Ментор: " ++ text]) s.history },
          [Out.forwardToUserMsg u text])

/-- Handler `end_chat` (lines 335-364).  `sessions.pop(mentor_id, None)` is tested
for truthiness (`if user_id:`), so participant id `0` would skip the inner
teardown exactly as in Python. -/
def end_chat (c : Cfg) (s : BotState) (i : Nat) : BotState × List Out :=
  if i ≠ c.mentorId then (s, [Out.endNoRights i])
  else if c.mentorId ∈ keys s.sessions then
    let u? := dlookup c.mentorId s.sessions
    let s1 : BotState := { s with sessions := derase c.mentorId s.sessions }
    let r2 : BotState × List Out :=
      match u? with
      | some u =>
        if u ≠ 0 then
          ({ s1 with
              sessions := derase u s1.sessions,
              history := derase u s1.history },
            [Out.chatEndedUser u])
        else (s1, [])
      | none => (s1, [])
    let notice : List Out :=
      match s.waitlist with
      | [] => []
      | nextId :: _ => [Out.nextWaiting c.mentorId (dlookup nextId s.users)]
    (r2.1, r2.2 ++ [Out.chatEndedMentor i] ++ notice)
  else (s, [Out.noActiveChat i])

/-- Inbound events, tagged with the sender identity: plain messages (with
the sender's profile username) and the callback buttons the dispatcher
recognises by their `callback_data`. -/
inductive Ev where
  | msg (i : Nat) (uname : Option String) (text : String)
  | cbEnterSchool (i : Nat)
  | cbCallMentor (i : Nat)
  | cbUseAnonymous (i : Nat)
  | cbEnterCustomName (i : Nat)
  | cbMentorJoin (i : Nat)
  | cbMentorEnd (i : Nat)
deriving DecidableEq

/-- Sender identity of an event. -/
def evSender : Ev → Nat
  | .msg i _ _ => i
  | .cbEnterSchool i => i
  | .cbCallMentor i => i
  | .cbUseAnonymous i => i
  | .cbEnterCustomName i => i
  | .cbMentorJoin i => i
  | .cbMentorEnd i => i

/-- One dispatcher round, mirroring `register_handlers` (lines 47-96):
message handlers are tried in registration order (first match wins),
callback handlers are selected purely on `callback_data`.  `none` is an
uncaught exception inside the chosen handler. -/
def step (c : Cfg) (s : BotState) : Ev → Option (BotState × List Out)
  | .msg i uname text =>
    if text = "/start" then some (send_welcome c s i)
    else if i ∉ keys s.users ∧ i ≠ c.mentorId ∧ i ∉ s.awaiting then
      some (check_password c s i uname text)
    else if i ∈ keys s.users ∧ i ∉ keys s.sessions ∧ i ≠ c.mentorId then
      some (waiting_message s i)
    else if i ∈ keys s.users ∧ i ∈ keys s.sessions then
      forward_to_mentor s i text
    else if text = "/join" then some (join_chat c s i)
    else if text = "/end" then some (end_chat c s i)
    else if i = c.mentorId ∧ c.mentorId ∈ keys s.sessions ∧ startsWithSlash text = false then
      some (forward_to_user c s text)
    else if i ∈ s.awaiting then some (set_custom_name s i text)
    else some (s, [])
  | .cbEnterSchool i => some (s, [Out.enterPassword i, Out.ack i none])
  | .cbCallMentor i => some (call_mentor c s i)
  | .cbUseAnonymous i => some (use_anonymous s i)
  | .cbEnterCustomName i => some (enter_custom_name s i)
  | .cbMentorJoin i =>
    if i ≠ c.mentorId then some (s, [Out.noRightsAlert i])
    else
      let r := join_chat c s i
      some (r.1, r.2 ++ [Out.ack i none])
  | .cbMentorEnd i =>
    if i ≠ c.mentorId then some (s, [Out.noRightsAlert i])
    else
      let r := end_chat c s i
      some (r.1, r.2 ++ [Out.ack i none])

/-- States reachable from the fresh bot by events whose sender id is a
genuine (positive) Telegram id and which satisfy an extra trace
restriction `P`. -/
inductive ReachUnder (c : Cfg) (P : BotState → Ev → Prop) : BotState → Prop where
  | init : ReachUnder c P initState
  | next (e : Ev) {s s' : BotState} {outs : List Out} :
      ReachUnder c P s → 0 < evSender e → P s e →
      step c s e = some (s', outs) → ReachUnder c P s'

/-- States reachable with no restriction beyond positive sender ids. -/
def Reaches (c : Cfg) : BotState → Prop := ReachUnder c (fun _ _ => True)

/-- Run a list of events from a state, discarding outputs (`none` as soon
as a handler raises). -/
def stepN (c : Cfg) : BotState → List Ev → Option BotState
  | s, [] => some s
  | s, e :: rest =>
    match step c s e with
    | none => none
    | some (s', _) => stepN c s' rest

/-- Trace restriction for the amended pairing claim: the mentor never
issues the `use_anonymous` / `enter_custom_name` callbacks.  Both are
registered on `callback_data` alone, so nothing in the code prevents the
mentor from triggering them; the intended UI, however, never offers these
buttons to the mentor. -/
def MentorNoRegEv (c : Cfg) : BotState → Ev → Prop := fun _ e =>
  e ≠ Ev.cbUseAnonymous c.mentorId ∧ e ≠ Ev.cbEnterCustomName c.mentorId

/-- The pairing is empty or exactly one symmetric mentor-participant pair. -/
def SessionsOk (c : Cfg) (s : BotState) : Prop :=
  s.sessions = [] ∨
    ∃ p, 0 < p ∧ p ≠ c.mentorId ∧ s.sessions = [(c.mentorId, p), (p, c.mentorId)]

/-- Inductive invariant behind the pairing claim: the mentor is never
registered, pending or queued, all registered and queued ids are
positive, and the pairing is well formed. -/
def Inv1 (c : Cfg) (s : BotState) : Prop :=
  c.mentorId ∉ keys s.users ∧ c.mentorId ∉ s.awaiting ∧ c.mentorId ∉ s.waitlist ∧
    (∀ u ∈ s.waitlist, 0 < u) ∧ (∀ u ∈ keys s.users, 0 < u) ∧ SessionsOk c s

/-- Trace restriction for the amended registration-state claim:
`enter_custom_name` only for identities not yet registered, and
`use_anonymous` only for identities not currently awaiting a custom name
(the situations in which the source ever offers those buttons). -/
def RegFlowOk : BotState → Ev → Prop := fun s e =>
  (∀ i, e = Ev.cbEnterCustomName i → i ∉ keys s.users) ∧
  (∀ i, e = Ev.cbUseAnonymous i → i ∉ s.awaiting)

/-- Inductive invariant behind the registration-state claim. -/
def Inv9 (s : BotState) : Prop :=
  s.awaiting.Nodup ∧ ∀ j ∈ keys s.users, j ∉ s.awaiting

/-- Example configuration used by concrete witnesses: mentor id `1`,
password `"p"`. -/
def cfgEx : Cfg := ⟨1, "p"⟩

/-- A state with an active pairing 1↔2 and identity 7 awaiting a name. -/
def busyState : BotState := ⟨[], [(1, 2), (2, 1)], [], [], [7]⟩

/-- A state with registered participant 2 and an active pairing 1↔3. -/
def queueState : BotState := ⟨[(2, "b")], [(1, 3), (3, 1)], [], [], []⟩

/-- A state with an active pairing 1↔2, participant 3 queued, and
histories for 2 and 3. -/
def endState : BotState := ⟨[(2, "b")], [(1, 2), (2, 1)], [3], [(2, ["x"]), (3, [])], []⟩

/-- A state with an active pairing 1↔2 and participant 3 at the head of
the waitlist. -/
def fifoState : BotState := ⟨[], [(1, 2), (2, 1)], [3], [], []⟩

/-- An idle state with registered participant 2 and queued identity 5. -/
def joinState : BotState := ⟨[(2, "b")], [], [5], [], []⟩

theorem reaches_stepN (c : Cfg) (es : List Ev) (s s' : BotState)
    (hpos : ∀ e ∈ es, 0 < evSender e) (hs : stepN c s es = some s')
    (hr : Reaches c s) : Reaches c s' := by
  induction es generalizing s with
  | nil =>
    simp only [stepN, Option.some.injEq] at hs
    exact hs ▸ hr
  | cons e rest ih =>
    simp only [stepN] at hs
    cases hstep : step c s e with
    | none => rw [hstep] at hs; exact absurd hs (by simp)
    | some r =>
      rw [hstep] at hs
      exact ih r.1 (fun e' he' => hpos e' (List.mem_cons_of_mem e he'))
        hs (ReachUnder.next e hr (hpos e (List.mem_cons_self e rest)) trivial
          (by rw [hstep]))

/-! ### Association-list lemmas -/

theorem mem_keys_dinsert {α : Type} (k a : Nat) (v : α) (l : List (Nat × α)) :
    a ∈ keys (dinsert k v l) ↔ a = k ∨ a ∈ keys l := by
  induction l with
  | nil => simp [dinsert, keys]
  | cons p rest ih =>
    obtain ⟨k', v'⟩ := p
    by_cases h : k' = k
    · subst h
      simp [dinsert, keys]
    · simp only [dinsert, if_neg h, keys, List.map_cons, List.mem_cons] at ih ⊢
      rw [ih]
      tauto

theorem dlookup_dinsert_self {α : Type} (k : Nat) (v : α) (l : List (Nat × α)) :
    dlookup k (dinsert k v l) = some v := by
  induction l with
  | nil => simp [dinsert, dlookup]
  | cons p rest ih =>
    obtain ⟨k', v'⟩ := p
    by_cases h : k' = k
    · subst h
      simp [dinsert, dlookup]
    · simp [dinsert, dlookup, h, ih]

theorem dlookup_dinsert_ne {α : Type} (k a : Nat) (v : α) (l : List (Nat × α))
    (h : a ≠ k) : dlookup a (dinsert k v l) = dlookup a l := by
  induction l with
  | nil => simp [dinsert, dlookup, Ne.symm h]
  | cons p rest ih =>
    obtain ⟨k', v'⟩ := p
    by_cases hk : k' = k
    · subst hk
      simp [dinsert, dlookup, Ne.symm h]
    · simp only [dinsert, if_neg hk, dlookup]
      rw [ih]

theorem dlookup_eq_none_iff {α : Type} (a : Nat) (l : List (Nat × α)) :
    dlookup a l = none ↔ a ∉ keys l := by
  induction l with
  | nil => simp [dlookup, keys]
  | cons p rest ih =>
    obtain ⟨k', v'⟩ := p
    by_cases h : k' = a
    · subst h
      simp [dlookup, keys]
    · simp [dlookup, keys, h, Ne.symm h, ih]

theorem mem_keys_of_dlookup {α : Type} (a : Nat) (v : α) (l : List (Nat × α))
    (h : dlookup a l = some v) : a ∈ keys l := by
  by_contra hmem
  rw [← dlookup_eq_none_iff] at hmem
  rw [h] at hmem
  exact Option.noConfusion hmem

theorem dlookup_derase_ne {α : Type} (k a : Nat) (l : List (Nat × α)) (h : a ≠ k) :
    dlookup a (derase k l) = dlookup a l := by
  induction l with
  | nil => simp [derase]
  | cons p rest ih =>
    obtain ⟨k', v'⟩ := p
    by_cases hk : k' = k
    · subst hk
      simp [derase, dlookup, Ne.symm h]
    · simp only [derase, if_neg hk, dlookup]
      rw [ih]

theorem dlookup_derase_self {α : Type} (k : Nat) (l : List (Nat × α))
    (hnd : (keys l).Nodup) : dlookup k (derase k l) = none := by
  induction l with
  | nil => simp [derase, dlookup]
  | cons p rest ih =>
    obtain ⟨k', v'⟩ := p
    simp only [keys, List.map_cons, List.nodup_cons] at hnd
    by_cases hk : k' = k
    · subst hk
      rw [derase, if_pos rfl, dlookup_eq_none_iff]
      exact hnd.1
    · rw [derase, if_neg hk, dlookup, if_neg hk]
      exact ih hnd.2

theorem mem_ainsert (i a : Nat) (l : List Nat) :
    a ∈ ainsert i l ↔ a = i ∨ a ∈ l := by
  unfold ainsert
  split <;> rename_i h
  · constructor
    · exact fun ha => Or.inr ha
    · rintro (rfl | ha)
      · exact h
      · exact ha
  · simp [List.mem_append]
    tauto

theorem nodup_ainsert (i : Nat) (l : List Nat) (h : l.Nodup) :
    (ainsert i l).Nodup := by
  unfold ainsert
  split <;> rename_i hmem
  · exact h
  · simp [List.nodup_append, h, hmem]

/-! ### Pairing invariant (restricted reachability) -/

theorem inv1_check_password (c : Cfg) (s : BotState) (i : Nat) (uname : Option String)
    (text : String) (h : Inv1 c s) (hi : i ≠ c.mentorId) (hpos : 0 < i) :
    Inv1 c (check_password c s i uname text).1 := by
  obtain ⟨hA, hB, hC, hD, hE, hF⟩ := h
  unfold check_password
  by_cases ht : text = c.accessPassword
  · simp only [if_pos ht, if_neg hi]
    cases uname with
    | none => exact ⟨hA, hB, hC, hD, hE, hF⟩
    | some u =>
      refine ⟨?_, hB, hC, hD, ?_, hF⟩
      · intro hmem
        rcases (mem_keys_dinsert i c.mentorId u s.users).mp hmem with h1 | h1
        · exact hi h1.symm
        · exact hA h1
      · intro w hw
        rcases (mem_keys_dinsert i w u s.users).mp hw with h1 | h1
        · exact h1 ▸ hpos
        · exact hE w h1
  · simp only [if_neg ht]
    exact ⟨hA, hB, hC, hD, hE, hF⟩

theorem inv1_set_custom_name (c : Cfg) (s : BotState) (i : Nat) (text : String)
    (h : Inv1 c s) (hpos : 0 < i) : Inv1 c (set_custom_name s i text).1 := by
  obtain ⟨hA, hB, hC, hD, hE, hF⟩ := h
  unfold set_custom_name
  by_cases hw : i ∈ s.awaiting
  · have hi : i ≠ c.mentorId := fun he => hB (he ▸ hw)
    simp only [if_pos hw]
    by_cases hch : pyStrip text = ""
    · simp only [if_pos hch]
      exact ⟨hA, hB, hC, hD, hE, hF⟩
    · simp only [if_neg hch]
      refine ⟨?_, ?_, hC, hD, ?_, hF⟩
      · intro hmem
        rcases (mem_keys_dinsert i c.mentorId (pyStrip text) s.users).mp hmem with h1 | h1
        · exact hi h1.symm
        · exact hA h1
      · exact fun hmem => hB (List.mem_of_mem_erase hmem)
      · intro w hw'
        rcases (mem_keys_dinsert i w (pyStrip text) s.users).mp hw' with h1 | h1
        · exact h1 ▸ hpos
        · exact hE w h1
  · simp only [if_neg hw]
    exact ⟨hA, hB, hC, hD, hE, hF⟩

theorem inv1_call_mentor (c : Cfg) (s : BotState) (i : Nat) (h : Inv1 c s) :
    Inv1 c (call_mentor c s i).1 := by
  obtain ⟨hA, hB, hC, hD, hE, hF⟩ := h
  unfold call_mentor
  by_cases hu : (dlookup i s.users).getD "" = ""
  · simp only [if_pos hu]
    exact ⟨hA, hB, hC, hD, hE, hF⟩
  · have hmem : i ∈ keys s.users := by
      cases hl : dlookup i s.users with
      | none => rw [hl] at hu; simp at hu
      | some v => exact mem_keys_of_dlookup i v s.users hl
    have hi : i ≠ c.mentorId := fun he => hA (he ▸ hmem)
    have hip : 0 < i := hE i hmem
    simp only [if_neg hu]
    by_cases hms : c.mentorId ∈ keys s.sessions
    · simp only [if_pos hms]
      by_cases hwl : i ∉ s.waitlist
      · simp only [if_pos hwl]
        refine ⟨hA, hB, ?_, ?_, hE, hF⟩
        · intro hmem'
          rcases List.mem_append.mp hmem' with h1 | h1
          · exact hC h1
          · exact hi (List.mem_singleton.mp h1).symm
        · intro w hw
          rcases List.mem_append.mp hw with h1 | h1
          · exact hD w h1
          · rw [List.mem_singleton.mp h1]; exact hip
      · simp only [if_neg hwl]
        exact ⟨hA, hB, hC, hD, hE, hF⟩
    · simp only [if_neg hms]
      exact ⟨hA, hB, hC, hD, hE, hF⟩

theorem inv1_use_anonymous (c : Cfg) (s : BotState) (i : Nat) (h : Inv1 c s)
    (hi : i ≠ c.mentorId) (hpos : 0 < i) : Inv1 c (use_anonymous s i).1 := by
  obtain ⟨hA, hB, hC, hD, hE, hF⟩ := h
  refine ⟨?_, hB, hC, hD, ?_, hF⟩
  · intro hmem
    rcases (mem_keys_dinsert i c.mentorId "Аноним" s.users).mp hmem with h1 | h1
    · exact hi h1.symm
    · exact hA h1
  · intro w hw
    rcases (mem_keys_dinsert i w "Аноним" s.users).mp hw with h1 | h1
    · exact h1 ▸ hpos
    · exact hE w h1

theorem inv1_enter_custom_name (c : Cfg) (s : BotState) (i : Nat) (h : Inv1 c s)
    (hi : i ≠ c.mentorId) : Inv1 c (enter_custom_name s i).1 := by
  obtain ⟨hA, hB, hC, hD, hE, hF⟩ := h
  refine ⟨hA, ?_, hC, hD, hE, hF⟩
  intro hmem
  rcases (mem_ainsert i c.mentorId s.awaiting).mp hmem with h1 | h1
  · exact hi h1.symm
  · exact hB h1

theorem inv1_join_chat (c : Cfg) (s : BotState) (i : Nat) (h : Inv1 c s) :
    Inv1 c (join_chat c s i).1 := by
  obtain ⟨hA, hB, hC, hD, hE, hF⟩ := h
  unfold join_chat
  by_cases hi : i = c.mentorId
  · rw [if_neg (by simpa using hi)]
    by_cases hms : c.mentorId ∈ keys s.sessions
    · rw [if_pos hms]
      exact ⟨hA, hB, hC, hD, hE, hF⟩
    · rw [if_neg hms]
      have hemp : s.sessions = [] := by
        rcases hF with he | ⟨p, _, _, hpair⟩
        · exact he
        · exact absurd (by rw [hpair]; simp [keys]) hms
      cases hwl : s.waitlist with
      | cons u rest =>
        have hu_mem : u ∈ s.waitlist := by rw [hwl]; exact List.mem_cons_self u rest
        have hum : u ≠ c.mentorId := fun he => hC (he ▸ hu_mem)
        have hup : 0 < u := hD u hu_mem
        refine ⟨hA, hB, ?_, ?_, hE, ?_⟩
        · exact fun hmem => hC (hwl ▸ List.mem_cons_of_mem u hmem)
        · exact fun w hw => hD w (hwl ▸ List.mem_cons_of_mem u hw)
        · right
          exact ⟨u, hup, hum, by simp [pairWith, hemp, dinsert, Ne.symm hum]⟩
      | nil =>
        cases hfl : (keys s.users).filter
            (fun u => decide (u ∉ keys s.sessions ∧ u ≠ c.mentorId)) with
        | nil => exact ⟨hA, hB, hC, hD, hE, hF⟩
        | cons u rest =>
          have hu_mem : u ∈ (keys s.users).filter
              (fun u => decide (u ∉ keys s.sessions ∧ u ≠ c.mentorId)) := by
            rw [hfl]; exact List.mem_cons_self u rest
          have hsplit := List.mem_filter.mp hu_mem
          have hu_users : u ∈ keys s.users := hsplit.1


          have hPred : u ∉ keys s.sessions ∧ u ≠ c.mentorId := by
            simpa using hsplit.2
          refine ⟨hA, hB, ?_, ?_, hE, ?_⟩
          · simp [pairWith]
          · simp [pairWith]
          · right
            exact ⟨u, hE u hu_users, hPred.2,
              by simp [pairWith, hemp, dinsert, Ne.symm hPred.2]⟩
  · rw [if_pos hi]
    exact ⟨hA, hB, hC, hD, hE, hF⟩

/-- Computation of `end_chat` on a well-formed symmetric pairing: both
entries removed, the participant's history entry popped, everything else
untouched; the mentor gets the extra waiting notice iff the waitlist is
non-empty, without any state change. -/
theorem end_chat_pair (c : Cfg) (s : BotState) (p : Nat)
    (hpair : s.sessions = [(c.mentorId, p), (p, c.mentorId)]) (hpm : p ≠ c.mentorId)
    (hp0 : p ≠ 0) :
    (end_chat c s c.mentorId).1.users = s.users ∧
    (end_chat c s c.mentorId).1.sessions = [] ∧
    (end_chat c s c.mentorId).1.waitlist = s.waitlist ∧
    (end_chat c s c.mentorId).1.history = derase p s.history ∧
    (end_chat c s c.mentorId).1.awaiting = s.awaiting ∧
    (end_chat c s c.mentorId).2 =
      [Out.chatEndedUser p, Out.chatEndedMentor c.mentorId] ++
        (match s.waitlist with
        | [] => []
        | nextId :: _ => [Out.nextWaiting c.mentorId (dlookup nextId s.users)]) := by
  have hMp : ¬ c.mentorId = p := Ne.symm hpm
  have hms : c.mentorId ∈ keys s.sessions := by rw [hpair]; simp [keys]
  unfold end_chat
  rw [if_neg (fun hne => hne rfl), if_pos hms, hpair]
  simp only [dlookup, derase, if_pos rfl, hp0, ite_true, ite_false, if_neg hMp]
  cases hwl : s.waitlist <;> simp [derase, hp0]

theorem inv1_end_chat (c : Cfg) (s : BotState) (i : Nat) (h : Inv1 c s) :
    Inv1 c (end_chat c s i).1 := by
  obtain ⟨hA, hB, hC, hD, hE, hF⟩ := h
  by_cases hi : i = c.mentorId
  · rw [hi]
    by_cases hms : c.mentorId ∈ keys s.sessions
    · rcases hF with he | ⟨p, hp0, hpm, hpair⟩
      · exact absurd hms (by rw [he]; simp [keys])
      · obtain ⟨h1, h2, h3, h4, h5, h6⟩ :=
          end_chat_pair c s p hpair hpm (Nat.pos_iff_ne_zero.mp hp0)
        unfold Inv1 SessionsOk
        rw [h1, h2, h3, h5]
        exact ⟨hA, hB, hC, hD, hE, Or.inl rfl⟩
    · unfold end_chat
      rw [if_neg (fun hne => hne rfl), if_neg hms]
      exact ⟨hA, hB, hC, hD, hE, hF⟩
  · unfold end_chat
    rw [if_pos (by simpa using hi)]
    exact ⟨hA, hB, hC, hD, hE, hF⟩

theorem inv1_forward_to_mentor (c : Cfg) (s s' : BotState) (i : Nat) (text : String)
    (outs : List Out) (h : Inv1 c s)
    (hstep : forward_to_mentor s i text = some (s', outs)) : Inv1 c s' := by
  obtain ⟨hA, hB, hC, hD, hE, hF⟩ := h
  unfold forward_to_mentor at hstep
  cases hse : dlookup i s.sessions with
  | none =>
    rw [hse] at hstep
    simp only [Option.some.injEq, Prod.mk.injEq] at hstep
    rw [← hstep.1]
    exact ⟨hA, hB, hC, hD, hE, hF⟩
  | some m =>
    rw [hse] at hstep
    cases hh : dlookup i s.history with
    | none => rw [hh] at hstep; exact absurd hstep (by simp)
    | some hl =>
      rw [hh] at hstep
      simp only [Option.some.injEq, Prod.mk.injEq] at hstep
      rw [← hstep.1]
      exact ⟨hA, hB, hC, hD, hE, hF⟩

theorem inv1_forward_to_user (c : Cfg) (s : BotState) (text : String) (h : Inv1 c s) :
    Inv1 c (forward_to_user c s text).1 := by
  obtain ⟨hA, hB, hC, hD, hE, hF⟩ := h
  unfold forward_to_user
  by_cases hms : c.mentorId ∉ keys s.sessions
  · simp only [if_pos hms]
    exact ⟨hA, hB, hC, hD, hE, hF⟩
  · simp only [if_neg hms]
    cases hse : dlookup c.mentorId s.sessions with
    | none => exact ⟨hA, hB, hC, hD, hE, hF⟩
    | some u =>
      by_cases hu : u = 0
      · simp only [if_pos hu]
        exact ⟨hA, hB, hC, hD, hE, hF⟩
      · simp only [if_neg hu]
        exact ⟨hA, hB, hC, hD, hE, hF⟩

theorem send_welcome_fst (c : Cfg) (s : BotState) (i : Nat) :
    (send_welcome c s i).1 = s := by
  unfold send_welcome
  split_ifs <;> rfl

theorem inv1_step (c : Cfg) (s s' : BotState) (e : Ev) (outs : List Out)
    (h : Inv1 c s) (hpos : 0 < evSender e) (hP : MentorNoRegEv c s e)
    (hstep : step c s e = some (s', outs)) : Inv1 c s' := by
  cases e with
  | msg i uname text =>
    have hposi : 0 < i := hpos
    simp only [step] at hstep
    split_ifs at hstep with h1 h2 h3 h4 h5 h6 h7 h8
    · simp only [Option.some.injEq, Prod.ext_iff] at hstep
      rw [← hstep.1, send_welcome_fst]
      exact h
    · simp only [Option.some.injEq, Prod.ext_iff] at hstep
      rw [← hstep.1]
      exact inv1_check_password c s i uname text h h2.2.1 hposi
    · simp only [Option.some.injEq, Prod.ext_iff] at hstep
      rw [← hstep.1]
      exact h
    · exact inv1_forward_to_mentor c s s' i text outs h hstep
    · simp only [Option.some.injEq, Prod.ext_iff] at hstep
      rw [← hstep.1]
      exact inv1_join_chat c s i h
    · simp only [Option.some.injEq, Prod.ext_iff] at hstep
      rw [← hstep.1]
      exact inv1_end_chat c s i h
    · simp only [Option.some.injEq, Prod.ext_iff] at hstep
      rw [← hstep.1]
      exact inv1_forward_to_user c s text h
    · simp only [Option.some.injEq, Prod.ext_iff] at hstep
      rw [← hstep.1]
      exact inv1_set_custom_name c s i text h hposi
    · simp only [Option.some.injEq, Prod.ext_iff] at hstep
      rw [← hstep.1]
      exact h
  | cbEnterSchool i =>
    simp only [step, Option.some.injEq, Prod.ext_iff] at hstep
    rw [← hstep.1]
    exact h
  | cbCallMentor i =>
    simp only [step, Option.some.injEq, Prod.ext_iff] at hstep
    rw [← hstep.1]
    exact inv1_call_mentor c s i h
  | cbUseAnonymous i =>
    have hi : i ≠ c.mentorId := fun he => hP.1 (congrArg Ev.cbUseAnonymous he)
    simp only [step, Option.some.injEq, Prod.ext_iff] at hstep
    rw [← hstep.1]
    exact inv1_use_anonymous c s i h hi hpos
  | cbEnterCustomName i =>
    have hi : i ≠ c.mentorId := fun he => hP.2 (congrArg Ev.cbEnterCustomName he)
    simp only [step, Option.some.injEq, Prod.ext_iff] at hstep
    rw [← hstep.1]
    exact inv1_enter_custom_name c s i h hi
  | cbMentorJoin i =>
    simp only [step] at hstep
    split_ifs at hstep with h1
    · simp only [Option.some.injEq, Prod.ext_iff] at hstep
      rw [← hstep.1]
      exact h
    · simp only [Option.some.injEq, Prod.ext_iff] at hstep
      rw [← hstep.1]
      exact inv1_join_chat c s i h
  | cbMentorEnd i =>
    simp only [step] at hstep
    split_ifs at hstep with h1
    · simp only [Option.some.injEq, Prod.ext_iff] at hstep
      rw [← hstep.1]
      exact h
    · simp only [Option.some.injEq, Prod.ext_iff] at hstep
      rw [← hstep.1]
      exact inv1_end_chat c s i h

theorem inv1_reach (c : Cfg) (s : BotState)
    (hr : ReachUnder c (MentorNoRegEv c) s) : Inv1 c s := by
  induction hr with
  | init =>
    refine ⟨?_, ?_, ?_, ?_, ?_, Or.inl rfl⟩ <;> simp [initState, keys]
  | next e hprev hpos hP hstep ih => exact inv1_step c _ _ e _ ih hpos hP hstep

/-! ### Frame lemmas: fields each handler leaves untouched -/

theorem check_password_frame (c : Cfg) (s : BotState) (i : Nat) (uname : Option String)
    (text : String) :
    (check_password c s i uname text).1.sessions = s.sessions ∧
    (check_password c s i uname text).1.waitlist = s.waitlist ∧
    (check_password c s i uname text).1.awaiting = s.awaiting := by
  unfold check_password
  split_ifs <;> cases uname <;> exact ⟨rfl, rfl, rfl⟩

theorem set_custom_name_frame (s : BotState) (i : Nat) (text : String) :
    (set_custom_name s i text).1.sessions = s.sessions ∧
    (set_custom_name s i text).1.waitlist = s.waitlist := by
  unfold set_custom_name
  dsimp only
  split_ifs <;> exact ⟨rfl, rfl⟩

theorem call_mentor_frame (c : Cfg) (s : BotState) (i : Nat) :
    (call_mentor c s i).1.users = s.users ∧ (call_mentor c s i).1.sessions = s.sessions ∧
    (call_mentor c s i).1.history = s.history ∧
    (call_mentor c s i).1.awaiting = s.awaiting := by
  unfold call_mentor
  dsimp only
  split_ifs <;> exact ⟨rfl, rfl, rfl, rfl⟩

theorem use_anonymous_frame (s : BotState) (i : Nat) :
    (use_anonymous s i).1.sessions = s.sessions ∧
    (use_anonymous s i).1.waitlist = s.waitlist ∧
    (use_anonymous s i).1.awaiting = s.awaiting :=
  ⟨rfl, rfl, rfl⟩

theorem enter_custom_name_frame (s : BotState) (i : Nat) :
    (enter_custom_name s i).1.users = s.users ∧
    (enter_custom_name s i).1.sessions = s.sessions ∧
    (enter_custom_name s i).1.waitlist = s.waitlist ∧
    (enter_custom_name s i).1.history = s.history :=
  ⟨rfl, rfl, rfl, rfl⟩

theorem join_chat_frame (c : Cfg) (s : BotState) (i : Nat) :
    (join_chat c s i).1.users = s.users ∧ (join_chat c s i).1.history = s.history ∧
    (join_chat c s i).1.awaiting = s.awaiting := by
  unfold join_chat
  split_ifs
  · exact ⟨rfl, rfl, rfl⟩
  · exact ⟨rfl, rfl, rfl⟩
  · cases s.waitlist with
    | cons u rest => exact ⟨rfl, rfl, rfl⟩
    | nil =>
      cases (keys s.users).filter
          (fun u => decide (u ∉ keys s.sessions ∧ u ≠ c.mentorId)) with
      | nil => exact ⟨rfl, rfl, rfl⟩
      | cons u rest => exact ⟨rfl, rfl, rfl⟩

theorem end_chat_frame (c : Cfg) (s : BotState) (i : Nat) :
    (end_chat c s i).1.users = s.users ∧ (end_chat c s i).1.waitlist = s.waitlist ∧
    (end_chat c s i).1.awaiting = s.awaiting := by
  unfold end_chat
  split_ifs
  · exact ⟨rfl, rfl, rfl⟩
  · dsimp only
    cases hse : dlookup c.mentorId s.sessions with
    | none => exact ⟨rfl, rfl, rfl⟩
    | some u =>
      dsimp only
      by_cases h0 : u ≠ 0
      · simp [h0]
      · simp [h0]
  · exact ⟨rfl, rfl, rfl⟩

theorem forward_to_mentor_frame (s s' : BotState) (i : Nat) (text : String)
    (outs : List Out) (hstep : forward_to_mentor s i text = some (s', outs)) :
    s'.users = s.users ∧ s'.sessions = s.sessions ∧ s'.waitlist = s.waitlist ∧
    s'.awaiting = s.awaiting := by
  unfold forward_to_mentor at hstep
  cases hse : dlookup i s.sessions with
  | none =>
    rw [hse] at hstep
    simp only [Option.some.injEq, Prod.ext_iff] at hstep
    rw [← hstep.1]
    exact ⟨rfl, rfl, rfl, rfl⟩
  | some m =>
    rw [hse] at hstep
    cases hh : dlookup i s.history with
    | none => rw [hh] at hstep; exact absurd hstep (by simp)
    | some hl =>
      rw [hh] at hstep
      simp only [Option.some.injEq, Prod.ext_iff] at hstep
      rw [← hstep.1]
      exact ⟨rfl, rfl, rfl, rfl⟩

theorem forward_to_user_frame (c : Cfg) (s : BotState) (text : String) :
    (forward_to_user c s text).1.users = s.users ∧
    (forward_to_user c s text).1.sessions = s.sessions ∧
    (forward_to_user c s text).1.waitlist = s.waitlist ∧
    (forward_to_user c s text).1.awaiting = s.awaiting := by
  by_cases hms : c.mentorId ∉ keys s.sessions
  · simp [forward_to_user, hms]
  · simp only [forward_to_user, if_neg hms]
    cases hse : dlookup c.mentorId s.sessions with
    | none => exact ⟨rfl, rfl, rfl, rfl⟩
    | some u =>
      dsimp only
      by_cases h0 : u = 0
      · simp [h0]
      · simp [h0]

/-! ### Waitlist duplicate-freedom -/

theorem nodup_call_mentor (c : Cfg) (s : BotState) (i : Nat) (h : s.waitlist.Nodup) :
    (call_mentor c s i).1.waitlist.Nodup := by
  unfold call_mentor
  dsimp only
  by_cases hu : (dlookup i s.users).getD "" = ""
  · simp only [if_pos hu]
    exact h
  · simp only [if_neg hu]
    by_cases hms : c.mentorId ∈ keys s.sessions
    · simp only [if_pos hms]
      by_cases hwl : i ∉ s.waitlist
      · simp only [if_pos hwl]
        simp [List.nodup_append, h, hwl]
      · simp only [if_neg hwl]
        exact h
    · simp only [if_neg hms]
      exact h

theorem nodup_join_chat (c : Cfg) (s : BotState) (i : Nat) (h : s.waitlist.Nodup) :
    (join_chat c s i).1.waitlist.Nodup := by
  unfold join_chat
  by_cases hi : i = c.mentorId
  · rw [if_neg (by simpa using hi)]
    by_cases hms : c.mentorId ∈ keys s.sessions
    · rw [if_pos hms]
      exact h
    · rw [if_neg hms]
      cases hwl : s.waitlist with
      | cons u rest => exact List.Nodup.of_cons (hwl ▸ h)
      | nil =>
        cases hfl : (keys s.users).filter
            (fun u => decide (u ∉ keys s.sessions ∧ u ≠ c.mentorId)) with
        | nil => exact h
        | cons u rest => exact List.nodup_nil
  · rw [if_pos hi]
    exact h

theorem nodup_of_waitlist_eq {s s' : BotState} (hw : s'.waitlist = s.waitlist)
    (h : s.waitlist.Nodup) : s'.waitlist.Nodup := by
  rw [hw]; exact h

theorem inv2_step (c : Cfg) (s s' : BotState) (e : Ev) (outs : List Out)
    (h : s.waitlist.Nodup) (hstep : step c s e = some (s', outs)) :
    s'.waitlist.Nodup := by
  cases e with
  | msg i uname text =>
    simp only [step] at hstep
    split_ifs at hstep with h1 h2 h3 h4 h5 h6 h7 h8
    · simp only [Option.some.injEq, Prod.ext_iff] at hstep
      rw [← hstep.1, send_welcome_fst]
      exact h
    · simp only [Option.some.injEq, Prod.ext_iff] at hstep
      rw [← hstep.1]
      exact nodup_of_waitlist_eq (check_password_frame c s i uname text).2.1 h
    · simp only [Option.some.injEq, Prod.ext_iff] at hstep
      rw [← hstep.1]
      exact h
    · exact nodup_of_waitlist_eq (forward_to_mentor_frame s s' i text outs hstep).2.2.1 h
    · simp only [Option.some.injEq, Prod.ext_iff] at hstep
      rw [← hstep.1]
      exact nodup_join_chat c s i h
    · simp only [Option.some.injEq, Prod.ext_iff] at hstep
      rw [← hstep.1]
      exact nodup_of_waitlist_eq (end_chat_frame c s i).2.1 h
    · simp only [Option.some.injEq, Prod.ext_iff] at hstep
      rw [← hstep.1]
      exact nodup_of_waitlist_eq (forward_to_user_frame c s text).2.2.1 h
    · simp only [Option.some.injEq, Prod.ext_iff] at hstep
      rw [← hstep.1]
      exact nodup_of_waitlist_eq (set_custom_name_frame s i text).2 h
    · simp only [Option.some.injEq, Prod.ext_iff] at hstep
      rw [← hstep.1]
      exact h
  | cbEnterSchool i =>
    simp only [step, Option.some.injEq, Prod.ext_iff] at hstep
    rw [← hstep.1]
    exact h
  | cbCallMentor i =>
    simp only [step, Option.some.injEq, Prod.ext_iff] at hstep
    rw [← hstep.1]
    exact nodup_call_mentor c s i h
  | cbUseAnonymous i =>
    simp only [step, Option.some.injEq, Prod.ext_iff] at hstep
    rw [← hstep.1]
    exact nodup_of_waitlist_eq (use_anonymous_frame s i).2.1 h
  | cbEnterCustomName i =>
    simp only [step, Option.some.injEq, Prod.ext_iff] at hstep
    rw [← hstep.1]
    exact nodup_of_waitlist_eq (enter_custom_name_frame s i).2.2.1 h
  | cbMentorJoin i =>
    simp only [step] at hstep
    split_ifs at hstep with h1
    · simp only [Option.some.injEq, Prod.ext_iff] at hstep
      rw [← hstep.1]
      exact h
    · simp only [Option.some.injEq, Prod.ext_iff] at hstep
      rw [← hstep.1]
      exact nodup_join_chat c s i h
  | cbMentorEnd i =>
    simp only [step] at hstep
    split_ifs at hstep with h1
    · simp only [Option.some.injEq, Prod.ext_iff] at hstep
      rw [← hstep.1]
      exact h
    · simp only [Option.some.injEq, Prod.ext_iff] at hstep
      rw [← hstep.1]
      exact nodup_of_waitlist_eq (end_chat_frame c s i).2.1 h

/-! ### Registration-state exclusivity (restricted reachability) -/

theorem inv9_of_frame {s s' : BotState} (h : Inv9 s) (hu : s'.users = s.users)
    (ha : s'.awaiting = s.awaiting) : Inv9 s' := by
  unfold Inv9
  rw [hu, ha]
  exact h

theorem inv9_check_password (c : Cfg) (s : BotState) (i : Nat) (uname : Option String)
    (text : String) (h : Inv9 s) (haw : i ∉ s.awaiting) :
    Inv9 (check_password c s i uname text).1 := by
  obtain ⟨hN, hX⟩ := h
  unfold check_password
  dsimp only
  by_cases ht : text = c.accessPassword
  · by_cases hi : i = c.mentorId
    · simp only [if_pos ht, if_pos hi]
      refine ⟨hN, ?_⟩
      intro j hj
      rcases (mem_keys_dinsert i j _ s.users).mp hj with h1 | h1
      · exact h1 ▸ haw
      · exact hX j h1
    · simp only [if_pos ht, if_neg hi]
      cases uname with
      | none => exact ⟨hN, hX⟩
      | some u =>
        refine ⟨hN, ?_⟩
        intro j hj
        rcases (mem_keys_dinsert i j u s.users).mp hj with h1 | h1
        · exact h1 ▸ haw
        · exact hX j h1
  · simp only [if_neg ht]
    exact ⟨hN, hX⟩

theorem inv9_set_custom_name (s : BotState) (i : Nat) (text : String) (h : Inv9 s) :
    Inv9 (set_custom_name s i text).1 := by
  obtain ⟨hN, hX⟩ := h
  unfold set_custom_name
  dsimp only
  by_cases hw : i ∈ s.awaiting
  · simp only [if_pos hw]
    by_cases hch : pyStrip text = ""
    · simp only [if_pos hch]
      exact ⟨hN, hX⟩
    · simp only [if_neg hch]
      refine ⟨List.Nodup.erase i hN, ?_⟩
      intro j hj
      rcases (mem_keys_dinsert i j (pyStrip text) s.users).mp hj with h1 | h1
      · subst h1
        intro hmem
        exact ((List.Nodup.mem_erase_iff hN).mp hmem).1 rfl
      · exact fun hmem => hX j h1 (List.mem_of_mem_erase hmem)
  · simp only [if_neg hw]
    exact ⟨hN, hX⟩

theorem inv9_use_anonymous (s : BotState) (i : Nat) (h : Inv9 s)
    (haw : i ∉ s.awaiting) : Inv9 (use_anonymous s i).1 := by
  obtain ⟨hN, hX⟩ := h
  refine ⟨hN, ?_⟩
  intro j hj
  rcases (mem_keys_dinsert i j "Аноним" s.users).mp hj with h1 | h1
  · exact h1 ▸ haw
  · exact hX j h1

theorem inv9_enter_custom_name (s : BotState) (i : Nat) (h : Inv9 s)
    (hu : i ∉ keys s.users) : Inv9 (enter_custom_name s i).1 := by
  obtain ⟨hN, hX⟩ := h
  refine ⟨nodup_ainsert i s.awaiting hN, ?_⟩
  intro j hj hmem
  rcases (mem_ainsert i j s.awaiting).mp hmem with h1 | h1
  · exact hu (h1 ▸ hj)
  · exact hX j hj h1

theorem inv9_step (c : Cfg) (s s' : BotState) (e : Ev) (outs : List Out)
    (h : Inv9 s) (hP : RegFlowOk s e)
    (hstep : step c s e = some (s', outs)) : Inv9 s' := by
  cases e with
  | msg i uname text =>
    simp only [step] at hstep
    split_ifs at hstep with h1 h2 h3 h4 h5 h6 h7 h8
    · simp only [Option.some.injEq, Prod.ext_iff] at hstep
      rw [← hstep.1, send_welcome_fst]
      exact h
    · simp only [Option.some.injEq, Prod.ext_iff] at hstep
      rw [← hstep.1]
      exact inv9_check_password c s i uname text h h2.2.2
    · simp only [Option.some.injEq, Prod.ext_iff] at hstep
      rw [← hstep.1]
      exact h
    · obtain ⟨hu, _, _, ha⟩ := forward_to_mentor_frame s s' i text outs hstep
      exact inv9_of_frame h hu ha
    · simp only [Option.some.injEq, Prod.ext_iff] at hstep
      rw [← hstep.1]
      exact inv9_of_frame h (join_chat_frame c s i).1 (join_chat_frame c s i).2.2
    · simp only [Option.some.injEq, Prod.ext_iff] at hstep
      rw [← hstep.1]
      exact inv9_of_frame h (end_chat_frame c s i).1 (end_chat_frame c s i).2.2
    · simp only [Option.some.injEq, Prod.ext_iff] at hstep
      rw [← hstep.1]
      exact inv9_of_frame h (forward_to_user_frame c s text).1
        (forward_to_user_frame c s text).2.2.2
    · simp only [Option.some.injEq, Prod.ext_iff] at hstep
      rw [← hstep.1]
      exact inv9_set_custom_name s i text h
    · simp only [Option.some.injEq, Prod.ext_iff] at hstep
      rw [← hstep.1]
      exact h
  | cbEnterSchool i =>
    simp only [step, Option.some.injEq, Prod.ext_iff] at hstep
    rw [← hstep.1]
    exact h
  | cbCallMentor i =>
    simp only [step, Option.some.injEq, Prod.ext_iff] at hstep
    rw [← hstep.1]
    exact inv9_of_frame h (call_mentor_frame c s i).1 (call_mentor_frame c s i).2.2.2
  | cbUseAnonymous i =>
    simp only [step, Option.some.injEq, Prod.ext_iff] at hstep
    rw [← hstep.1]
    exact inv9_use_anonymous s i h (hP.2 i rfl)
  | cbEnterCustomName i =>
    simp only [step, Option.some.injEq, Prod.ext_iff] at hstep
    rw [← hstep.1]
    exact inv9_enter_custom_name s i h (hP.1 i rfl)
  | cbMentorJoin i =>
    simp only [step] at hstep
    split_ifs at hstep with h1
    · simp only [Option.some.injEq, Prod.ext_iff] at hstep
      rw [← hstep.1]
      exact h
    · simp only [Option.some.injEq, Prod.ext_iff] at hstep
      rw [← hstep.1]
      exact inv9_of_frame h (join_chat_frame c s i).1 (join_chat_frame c s i).2.2
  | cbMentorEnd i =>
    simp only [step] at hstep
    split_ifs at hstep with h1
    · simp only [Option.some.injEq, Prod.ext_iff] at hstep
      rw [← hstep.1]
      exact h
    · simp only [Option.some.injEq, Prod.ext_iff] at hstep
      rw [← hstep.1]
      exact inv9_of_frame h (end_chat_frame c s i).1 (end_chat_frame c s i).2.2

/-! ### Computation lemmas for `join_chat` -/

theorem find?_eq_head_filter {α : Type} (p : α → Bool) (l : List α) :
    l.find? p = (l.filter p).head? := by
  induction l with
  | nil => rfl
  | cons a rest ih =>
    by_cases h : p a
    · rw [List.find?_cons_of_pos rest h, List.filter_cons_of_pos h, List.head?_cons]
    · rw [List.find?_cons_of_neg rest h, List.filter_cons_of_neg h, ih]

theorem join_chat_pop (c : Cfg) (s : BotState) (u : Nat) (rest : List Nat)
    (hidle : c.mentorId ∉ keys s.sessions) (hwl : s.waitlist = u :: rest) :
    join_chat c s c.mentorId =
      ({ s with
          sessions := dinsert u c.mentorId (dinsert c.mentorId u s.sessions),
          waitlist := rest },
        [Out.connectedMentor c.mentorId (dlookup u s.users), Out.mentorJoined u]) := by
  unfold join_chat
  rw [if_neg (fun hne => hne rfl), if_neg hidle, hwl]
  rfl

theorem join_chat_fallback (c : Cfg) (s : BotState) (u : Nat) (rest : List Nat)
    (hidle : c.mentorId ∉ keys s.sessions) (hwl : s.waitlist = [])
    (hfl : (keys s.users).filter
        (fun v => decide (v ∉ keys s.sessions ∧ v ≠ c.mentorId)) = u :: rest) :
    join_chat c s c.mentorId =
      ({ s with
          sessions := dinsert u c.mentorId (dinsert c.mentorId u s.sessions),
          waitlist := s.waitlist },
        [Out.connectedMentor c.mentorId (dlookup u s.users), Out.mentorJoined u]) := by
  unfold join_chat
  rw [if_neg (fun hne => hne rfl), if_neg hidle, hwl, hfl]
  rfl

theorem join_chat_nobody (c : Cfg) (s : BotState)
    (hidle : c.mentorId ∉ keys s.sessions) (hwl : s.waitlist = [])
    (hfl : (keys s.users).filter
        (fun v => decide (v ∉ keys s.sessions ∧ v ≠ c.mentorId)) = []) :
    join_chat c s c.mentorId = (s, [Out.nobodyWaiting c.mentorId]) := by
  unfold join_chat
  rw [if_neg (fun hne => hne rfl), if_neg hidle, hwl, hfl]

/-! ### Claim C1 -/

/-- C1 (corrected, counterexample part).  The claimed invariant — in
every reachable state the pairing map has zero entries or exactly two
mutual-inverse entries with the mentor mapped to a distinct participant —
fails as stated: the unguarded `use_anonymous` callback lets the mentor
register itself, `call_mentor` then queues the mentor while it is busy,
and after `end_chat` the next `join_chat` pops the mentor and collapses
the two symmetric session writes into the single self-entry
`sessions = [(1, 1)]`, which has one entry. -/
theorem pairing_invariant_counterexample :
    ∃ s : BotState, Reaches cfgEx s ∧ s.sessions = [(1, 1)] ∧
      ¬(s.sessions.length = 0 ∨ s.sessions.length = 2) := by
  refine ⟨⟨[(1, "Аноним"), (2, "Аноним")], [(1, 1)], [], [(1, [])], []⟩, ?_, rfl, by decide⟩
  exact reaches_stepN cfgEx
    [Ev.cbUseAnonymous 1, Ev.cbUseAnonymous 2, Ev.cbMentorJoin 1,
      Ev.cbCallMentor 1, Ev.cbMentorEnd 1, Ev.cbMentorJoin 1]
    initState _ (by decide) (by decide) ReachUnder.init

/-- C1 (amended).  Restricting traces to those in which the mentor never
issues the unguarded registration callbacks (`MentorNoRegEv`) — which is
how the shipped UI behaves — every reachable state has a pairing map that
is empty or exactly two mutual-inverse entries: the mentor key maps to a
participant distinct from the mentor and that participant maps back; all
operations, in particular `join_chat`, `end_chat` and `call_mentor`,
preserve this. -/
theorem pairing_invariant_restricted (c : Cfg) (s : BotState)
    (hr : ReachUnder c (MentorNoRegEv c) s) :
    s.sessions.length = 0 ∨
      (s.sessions.length = 2 ∧ ∃ p, p ≠ c.mentorId ∧
        dlookup c.mentorId s.sessions = some p ∧
        dlookup p s.sessions = some c.mentorId) := by
  rcases (inv1_reach c s hr).2.2.2.2.2 with he | ⟨p, hp0, hpm, hpair⟩
  · left
    rw [he]
    rfl
  · right
    refine ⟨by rw [hpair]; rfl, p, hpm, ?_, ?_⟩
    · rw [hpair]
      simp [dlookup]
    · rw [hpair]
      simp [dlookup, Ne.symm hpm]

/-- Witness for `pairing_invariant_restricted`: the initial state is
reachable under the restriction and satisfies the invariant. -/
theorem pairing_invariant_restricted_witness :
    initState.sessions.length = 0 ∨
      (initState.sessions.length = 2 ∧ ∃ p, p ≠ cfgEx.mentorId ∧
        dlookup cfgEx.mentorId initState.sessions = some p ∧
        dlookup p initState.sessions = some cfgEx.mentorId) :=
  pairing_invariant_restricted cfgEx initState ReachUnder.init

/-! ### Claim C2 -/

/-- C2 (corrected, counterexample part).  `call_mentor` never checks
whether the requester is currently paired, so the active participant 2
(who legitimately holds a call-mentor button) re-queues itself: a
reachable state has identity 2 simultaneously in the pairing map and in
the waitlist. -/
theorem waitlist_paired_counterexample :
    ∃ s : BotState, Reaches cfgEx s ∧ 2 ∈ keys s.sessions ∧ 2 ∈ s.waitlist := by
  refine ⟨⟨[(2, "Аноним")], [(1, 2), (2, 1)], [2], [(2, [])], []⟩, ?_, by decide, by decide⟩
  exact reaches_stepN cfgEx [Ev.cbUseAnonymous 2, Ev.cbMentorJoin 1, Ev.cbCallMentor 2]
    initState _ (by decide) (by decide) ReachUnder.init

/-- C2 (amended).  The duplicate-freedom half of the claim holds
unconditionally: in every reachable state the waitlist contains no
duplicate identities, and every operation preserves this (the only append
site, `call_mentor`, is guarded by a membership test).  The
already-paired-exclusion half fails (`waitlist_paired_counterexample`). -/
theorem waitlist_nodup_invariant (c : Cfg) (s : BotState) (hr : Reaches c s) :
    s.waitlist.Nodup := by
  induction hr with
  | init => exact List.nodup_nil
  | next e hprev hpos hP hstep ih => exact inv2_step c _ _ e _ ih hstep

/-- Witness for `waitlist_nodup_invariant` at the initial state. -/
theorem waitlist_nodup_invariant_witness : initState.waitlist.Nodup :=
  waitlist_nodup_invariant cfgEx initState ReachUnder.init

/-! ### Claim C3 -/

/-- C3 (confirmed).  With the mentor not in a session, `join_chat`
invoked by the mentor: pops and pairs the head of a non-empty waitlist;
with an empty waitlist pairs the first registered identity, in registry
(= registration) order, that is unpaired and not the mentor — i.e. the
`find?` over the registry key list, which is the identity of smallest
registration order satisfying the predicate; and when neither source
yields a candidate it emits the nobody-waiting notice and leaves the
state unchanged. -/
theorem join_chat_selection_policy (c : Cfg) (s : BotState)
    (hidle : c.mentorId ∉ keys s.sessions) :
    (∀ u rest, s.waitlist = u :: rest →
      join_chat c s c.mentorId =
        ({ s with
            sessions := dinsert u c.mentorId (dinsert c.mentorId u s.sessions),
            waitlist := rest },
          [Out.connectedMentor c.mentorId (dlookup u s.users), Out.mentorJoined u])) ∧
    (∀ u, s.waitlist = [] →
      (keys s.users).find?
          (fun v => decide (v ∉ keys s.sessions ∧ v ≠ c.mentorId)) = some u →
      join_chat c s c.mentorId =
        ({ s with
            sessions := dinsert u c.mentorId (dinsert c.mentorId u s.sessions),
            waitlist := s.waitlist },
          [Out.connectedMentor c.mentorId (dlookup u s.users), Out.mentorJoined u])) ∧
    (s.waitlist = [] →
      (keys s.users).find?
          (fun v => decide (v ∉ keys s.sessions ∧ v ≠ c.mentorId)) = none →
      join_chat c s c.mentorId = (s, [Out.nobodyWaiting c.mentorId])) := by
  refine ⟨fun u rest hwl => join_chat_pop c s u rest hidle hwl, ?_, ?_⟩
  · intro u hwl hfind
    rw [find?_eq_head_filter] at hfind
    cases hfl : (keys s.users).filter
        (fun v => decide (v ∉ keys s.sessions ∧ v ≠ c.mentorId)) with
    | nil => rw [hfl] at hfind; exact absurd hfind (by simp)
    | cons u' rest' =>
      rw [hfl] at hfind
      simp only [List.head?_cons, Option.some.injEq] at hfind
      subst hfind
      exact join_chat_fallback c s u' rest' hidle hwl hfl
  · intro hwl hfind
    rw [find?_eq_head_filter] at hfind
    cases hfl : (keys s.users).filter
        (fun v => decide (v ∉ keys s.sessions ∧ v ≠ c.mentorId)) with
    | cons u' rest' => rw [hfl] at hfind; exact absurd hfind (by simp)
    | nil => exact join_chat_nobody c s hidle hwl hfl

/-- Witness for `join_chat_selection_policy`: in `joinState` (mentor idle,
waitlist `[5]`) the mentor's connect pops and pairs identity 5. -/
theorem join_chat_selection_policy_witness :
    join_chat cfgEx joinState 1 =
      ({ joinState with
          sessions := dinsert 5 1 (dinsert 1 5 joinState.sessions),
          waitlist := [] },
        [Out.connectedMentor 1 (dlookup 5 joinState.users), Out.mentorJoined 5]) :=
  (join_chat_selection_policy cfgEx joinState (by decide)).1 5 [] rfl

/-! ### Claim C4 -/

/-- C4 (confirmed).  On a successful `end_chat` (mentor caller, pairing
active): both entries of the symmetric pairing are removed, the former
participant's history entry is popped (so its recorded transcript is
empty), the participant and the mentor are notified, the mentor gets the
extra waiting notice exactly when the waitlist is non-empty — with no
auto-connect — and the registry, the waitlist, the pending-name set and
all other histories are unchanged. -/
theorem end_chat_teardown_frame (c : Cfg) (s : BotState) (p : Nat)
    (hses : s.sessions = [(c.mentorId, p), (p, c.mentorId)]) (hpm : p ≠ c.mentorId)
    (hp0 : p ≠ 0) (hnd : (keys s.history).Nodup) :
    (end_chat c s c.mentorId).1.sessions = [] ∧
    dlookup p (end_chat c s c.mentorId).1.history = none ∧
    (∀ v, v ≠ p → dlookup v (end_chat c s c.mentorId).1.history = dlookup v s.history) ∧
    (end_chat c s c.mentorId).1.users = s.users ∧
    (end_chat c s c.mentorId).1.waitlist = s.waitlist ∧
    (end_chat c s c.mentorId).1.awaiting = s.awaiting ∧
    (end_chat c s c.mentorId).2 =
      [Out.chatEndedUser p, Out.chatEndedMentor c.mentorId] ++
        (match s.waitlist with
        | [] => []
        | nextId :: _ => [Out.nextWaiting c.mentorId (dlookup nextId s.users)]) := by
  obtain ⟨h1, h2, h3, h4, h5, h6⟩ := end_chat_pair c s p hses hpm hp0
  refine ⟨h2, ?_, ?_, h1, h3, h5, h6⟩
  · rw [h4]
    exact dlookup_derase_self p s.history hnd
  · intro v hv
    rw [h4]
    exact dlookup_derase_ne p v s.history hv

/-- Witness for `end_chat_teardown_frame` in `endState` (pairing 1↔2,
participant 3 queued): 2's history entry is gone, 3's kept, waitlist
kept, and the mentor receives the waiting notice for 3. -/
theorem end_chat_teardown_frame_witness :
    (end_chat cfgEx endState 1).1.sessions = [] ∧
    dlookup 2 (end_chat cfgEx endState 1).1.history = none ∧
    (end_chat cfgEx endState 1).1.waitlist = endState.waitlist ∧
    (end_chat cfgEx endState 1).2 =
      [Out.chatEndedUser 2, Out.chatEndedMentor 1] ++
        [Out.nextWaiting 1 (dlookup 3 endState.users)] :=
  let h := end_chat_teardown_frame cfgEx endState 2 rfl (by decide) (by decide) (by decide)
  ⟨h.1, h.2.1, h.2.2.2.2.1, h.2.2.2.2.2.2⟩

/-! ### Claim C5 -/

/-- C5 (confirmed).  From a state with a well-formed active pairing and
waitlist head `H` (no duplicate of `H` behind it, `H` not the mentor —
both guaranteed by the reachable-state invariants), `end_chat` followed
immediately by `join_chat` pairs the mentor with `H` and removes `H` from
the waitlist: FIFO fairness. -/
theorem end_then_join_fifo (c : Cfg) (s : BotState) (p H : Nat) (rest : List Nat)
    (hses : s.sessions = [(c.mentorId, p), (p, c.mentorId)]) (hpm : p ≠ c.mentorId)
    (hp0 : p ≠ 0) (hwl : s.waitlist = H :: rest) (hH : H ∉ rest)
    (hHm : H ≠ c.mentorId) :
    dlookup c.mentorId (join_chat c (end_chat c s c.mentorId).1 c.mentorId).1.sessions
      = some H ∧
    dlookup H (join_chat c (end_chat c s c.mentorId).1 c.mentorId).1.sessions
      = some c.mentorId ∧
    (join_chat c (end_chat c s c.mentorId).1 c.mentorId).1.waitlist = rest ∧
    H ∉ (join_chat c (end_chat c s c.mentorId).1 c.mentorId).1.waitlist := by
  obtain ⟨h1, h2, h3, h4, h5, h6⟩ := end_chat_pair c s p hses hpm hp0
  have hidle : c.mentorId ∉ keys (end_chat c s c.mentorId).1.sessions := by
    rw [h2]
    simp [keys]
  have hwl1 : (end_chat c s c.mentorId).1.waitlist = H :: rest := by rw [h3, hwl]
  have hjoin := join_chat_pop c (end_chat c s c.mentorId).1 H rest hidle hwl1
  refine ⟨?_, ?_, ?_, ?_⟩ <;> rw [hjoin]
  · dsimp only
    rw [h2]
    simp [dinsert, dlookup, Ne.symm hHm]
  · dsimp only
    rw [h2]
    simp [dinsert, dlookup, Ne.symm hHm, hHm]
  · dsimp only
    exact hH

/-- Witness for `end_then_join_fifo` in `fifoState` (pairing 1↔2, waitlist
`[3]`): ending then connecting pairs the mentor with 3 and empties the
waitlist. -/
theorem end_then_join_fifo_witness :
    dlookup 1 (join_chat cfgEx (end_chat cfgEx fifoState 1).1 1).1.sessions = some 3 ∧
    dlookup 3 (join_chat cfgEx (end_chat cfgEx fifoState 1).1 1).1.sessions = some 1 ∧
    (join_chat cfgEx (end_chat cfgEx fifoState 1).1 1).1.waitlist = [] ∧
    3 ∉ (join_chat cfgEx (end_chat cfgEx fifoState 1).1 1).1.waitlist :=
  end_then_join_fifo cfgEx fifoState 2 3 [] rfl (by decide) (by decide) rfl
    (by decide) (by decide)

/-! ### Claim C6 -/

/-- C6 (confirmed).  Every rejected broker operation emits exactly one
descriptive notice to the requester and returns the state unchanged:
wrong password in `check_password`; stripped-empty custom name in
`set_custom_name`; `join_chat` / `end_chat` attempted by a non-mentor;
connect attempted while a pairing is active; end attempted while no
pairing is active. -/
theorem rejected_ops_unchanged (c : Cfg) (s : BotState) (i : Nat)
    (uname : Option String) (text : String) :
    (text ≠ c.accessPassword →
      check_password c s i uname text = (s, [Out.wrongPassword i])) ∧
    (i ∈ s.awaiting → pyStrip text = "" →
      set_custom_name s i text = (s, [Out.emptyNameReprompt i])) ∧
    (i ≠ c.mentorId → join_chat c s i = (s, [Out.joinNoRights i])) ∧
    (i ≠ c.mentorId → end_chat c s i = (s, [Out.endNoRights i])) ∧
    (c.mentorId ∈ keys s.sessions →
      join_chat c s c.mentorId = (s, [Out.finishCurrentFirst c.mentorId])) ∧
    (c.mentorId ∉ keys s.sessions →
      end_chat c s c.mentorId = (s, [Out.noActiveChat c.mentorId])) := by
  refine ⟨?_, ?_, ?_, ?_, ?_, ?_⟩
  · intro ht
    unfold check_password
    rw [if_neg ht]
  · intro hw hch
    unfold set_custom_name
    rw [if_pos hw]
    dsimp only
    rw [if_pos hch]
  · intro hi
    unfold join_chat
    rw [if_pos hi]
  · intro hi
    unfold end_chat
    rw [if_pos hi]
  · intro hms
    unfold join_chat
    rw [if_neg (fun hne => hne rfl), if_pos hms]
  · intro hms
    unfold end_chat
    rw [if_neg (fun hne => hne rfl), if_neg hms]

/-- Witness for `rejected_ops_unchanged`: each rejection branch at a
concrete state (`busyState` has a pairing and identity 7 pending;
`initState` has no pairing). -/
theorem rejected_ops_unchanged_witness :
    check_password cfgEx busyState 7 none "x" = (busyState, [Out.wrongPassword 7]) ∧
    set_custom_name busyState 7 " " = (busyState, [Out.emptyNameReprompt 7]) ∧
    join_chat cfgEx busyState 7 = (busyState, [Out.joinNoRights 7]) ∧
    end_chat cfgEx busyState 7 = (busyState, [Out.endNoRights 7]) ∧
    join_chat cfgEx busyState 1 = (busyState, [Out.finishCurrentFirst 1]) ∧
    end_chat cfgEx initState 1 = (initState, [Out.noActiveChat 1]) :=
  ⟨(rejected_ops_unchanged cfgEx busyState 7 none "x").1 (by decide),
    (rejected_ops_unchanged cfgEx busyState 7 none " ").2.1 (by decide) (by decide),
    (rejected_ops_unchanged cfgEx busyState 7 none "x").2.2.1 (by decide),
    (rejected_ops_unchanged cfgEx busyState 7 none "x").2.2.2.1 (by decide),
    (rejected_ops_unchanged cfgEx busyState 7 none "x").2.2.2.2.1 (by decide),
    (rejected_ops_unchanged cfgEx initState 7 none "x").2.2.2.2.2 (by decide)⟩

/-! ### Claim C7 -/

/-- C7 (corrected, counterexample part).  `use_anonymous` is not
restricted to the pending-name state and does not clear the pending
flag: it succeeds (registers identity 2 under the anonymous label) from
the initial state where 2 is neither pending nor registered, and invoked
after `enter_custom_name` it leaves 2 in the pending-name set while
registered. -/
theorem use_anonymous_counterexample :
    (2 ∉ initState.awaiting ∧ 2 ∉ keys initState.users ∧
      dlookup 2 (use_anonymous initState 2).1.users = some "Аноним") ∧
    (2 ∈ (enter_custom_name initState 2).1.awaiting ∧
      2 ∈ (use_anonymous (enter_custom_name initState 2).1 2).1.awaiting) := by
  refine ⟨⟨by decide, by decide, by decide⟩, by decide, by decide⟩

/-- C7 (amended).  `use_anonymous` is accepted for any identity in any
state (the code has no PendingName guard): it registers the sender under
the fixed label "Аноним", initialises that identity's history to the
empty sequence, leaves every other registry entry, the sessions, the
waitlist and — contrary to the original claim — the entire pending-name
set unchanged, and emits the confirmation (with the call-mentor
affordance) plus the callback acknowledgement. -/
theorem use_anonymous_effects (s : BotState) (i : Nat) :
    dlookup i (use_anonymous s i).1.users = some "Аноним" ∧
    dlookup i (use_anonymous s i).1.history = some [] ∧
    (∀ j, j ≠ i → dlookup j (use_anonymous s i).1.users = dlookup j s.users) ∧
    (use_anonymous s i).1.sessions = s.sessions ∧
    (use_anonymous s i).1.waitlist = s.waitlist ∧
    (use_anonymous s i).1.awaiting = s.awaiting ∧
    (use_anonymous s i).2 = [Out.anonOk i, Out.ack i none] :=
  ⟨dlookup_dinsert_self i "Аноним" s.users, dlookup_dinsert_self i [] s.history,
    fun j hj => dlookup_dinsert_ne i j "Аноним" s.users hj,
    rfl, rfl, rfl, rfl⟩

/-! ### Claim C8 -/

/-- C8 (confirmed).  While a pairing is active, `call_mentor` is
idempotent for a registered requester `A` (registered with a non-empty
name, at most one queued copy — guaranteed by the waitlist invariant):
after two consecutive calls `A` is in the waitlist exactly once, and the
second call emits the already-queued notice to `A` and changes nothing. -/
theorem call_mentor_idempotent (c : Cfg) (s : BotState) (A : Nat) (nm : String)
    (hbusy : c.mentorId ∈ keys s.sessions) (hreg : dlookup A s.users = some nm)
    (hnm : nm ≠ "") (hcount : s.waitlist.count A ≤ 1) :
    (call_mentor c (call_mentor c s A).1 A).1 = (call_mentor c s A).1 ∧
    (call_mentor c s A).1.waitlist.count A = 1 ∧
    (call_mentor c (call_mentor c s A).1 A).1.waitlist.count A = 1 ∧
    Out.alreadyQueued A ∈ (call_mentor c (call_mentor c s A).1 A).2 := by
  have hgetD : (dlookup A s.users).getD "" = nm := by rw [hreg]; rfl
  by_cases hwl : A ∈ s.waitlist
  · have h1 : call_mentor c s A = (s, [Out.alreadyQueued A, Out.ack A (some "queued")]) := by
      unfold call_mentor
      dsimp only
      rw [hgetD, if_neg hnm, if_pos hbusy, if_neg (not_not_intro hwl)]
    have hc1 : s.waitlist.count A = 1 := by
      have hone : 1 ≤ s.waitlist.count A := List.one_le_count_iff.mpr hwl
      omega
    refine ⟨by simp [h1], by simp [h1, hc1], by simp [h1, hc1], by simp [h1]⟩
  · have h1 : call_mentor c s A =
        ({ s with waitlist := s.waitlist ++ [A] },
          [Out.queuedNotify c.mentorId A nm, Out.ack A (some "queued")]) := by
      unfold call_mentor
      dsimp only
      rw [hgetD, if_neg hnm, if_pos hbusy, if_pos hwl]
    have hwl1 : A ∈ ({ s with waitlist := s.waitlist ++ [A] } : BotState).waitlist := by
      simp
    have h2 : call_mentor c ({ s with waitlist := s.waitlist ++ [A] } : BotState) A =
        ({ s with waitlist := s.waitlist ++ [A] },
          [Out.alreadyQueued A, Out.ack A (some "queued")]) := by
      unfold call_mentor
      dsimp only
      rw [show (dlookup A ({ s with waitlist := s.waitlist ++ [A] } : BotState).users).getD ""
          = nm from by rw [hreg]; rfl]
      rw [if_neg hnm, if_pos hbusy, if_neg (not_not_intro hwl1)]
    have hc0 : s.waitlist.count A = 0 := List.count_eq_zero.mpr hwl
    have hc1 : (s.waitlist ++ [A]).count A = 1 := by
      simp [List.count_append, hc0]
    refine ⟨?_, ?_, ?_, ?_⟩
    · rw [h1]
      dsimp only
      rw [h2]
    · rw [h1]
      exact hc1
    · rw [h1]
      dsimp only
      rw [h2]
      exact hc1
    · rw [h1]
      dsimp only
      rw [h2]
      simp

/-- Witness for `call_mentor_idempotent` in `queueState` (pairing 1↔3,
registered participant 2, empty waitlist). -/
theorem call_mentor_idempotent_witness :
    (call_mentor cfgEx (call_mentor cfgEx queueState 2).1 2).1
      = (call_mentor cfgEx queueState 2).1 ∧
    (call_mentor cfgEx queueState 2).1.waitlist.count 2 = 1 ∧
    (call_mentor cfgEx (call_mentor cfgEx queueState 2).1 2).1.waitlist.count 2 = 1 ∧
    Out.alreadyQueued 2 ∈ (call_mentor cfgEx (call_mentor cfgEx queueState 2).1 2).2 :=
  call_mentor_idempotent cfgEx queueState 2 "b" (by decide) (by decide) (by decide)
    (by decide)

/-! ### Claim C9 -/

/-- C9 (corrected, counterexample part).  The three registration states
are not mutually exclusive: identity 2 registers with password and
profile name, then presses the (unguarded) enter-custom-name button, and
the reachable result has 2 simultaneously registered and pending-name. -/
theorem reg_states_counterexample :
    ∃ s : BotState, Reaches cfgEx s ∧ 2 ∈ keys s.users ∧ 2 ∈ s.awaiting := by
  refine ⟨⟨[(2, "bob")], [], [], [(2, [])], [2]⟩, ?_, by decide, by decide⟩
  exact reaches_stepN cfgEx [Ev.msg 2 (some "bob") "p", Ev.cbEnterCustomName 2]
    initState _ (by decide) (by decide) ReachUnder.init

/-- C9 (amended).  Restricting traces to those in which
`enter_custom_name` is only pressed by identities not yet registered and
`use_anonymous` only by identities not currently pending (`RegFlowOk`,
the situations in which the source ever offers those buttons), no
identity is ever simultaneously registered and pending-name, so every
identity is in at most one of unregistered / pending-name / registered;
`enter_custom_name` and `use_anonymous` then preserve the exclusivity. -/
theorem reg_states_exclusive_restricted (c : Cfg) (s : BotState)
    (hr : ReachUnder c RegFlowOk s) :
    ∀ i, ¬(i ∈ keys s.users ∧ i ∈ s.awaiting) := by
  have h : Inv9 s := by
    induction hr with
    | init => exact ⟨List.nodup_nil, by simp [initState, keys]⟩
    | next e hprev hpos hP hstep ih => exact inv9_step c _ _ e _ ih hP hstep
  exact fun i hi => h.2 i hi.1 hi.2

/-- Witness for `reg_states_exclusive_restricted` at the initial state
and identity 2. -/
theorem reg_states_exclusive_restricted_witness :
    ¬(2 ∈ keys initState.users ∧ 2 ∈ initState.awaiting) :=
  reg_states_exclusive_restricted cfgEx initState ReachUnder.init 2

/-! ### Claim C10 -/

/-- C10 (code_bug).  The claimed invariant — every participant key of the
pairing map has a history entry, so the unguarded
`self.history[uid].append` in `forward_to_mentor` never dereferences a
missing key — is violated: `end_chat` pops the participant's history
entry and `join_chat` re-pairs the same participant without recreating
it, so in the reachable state below participant 2 is paired while
`history` has no entry for 2, and 2's next message makes the dispatcher
raise `KeyError` (modelled as `step = none`). -/
theorem forward_history_keyerror :
    ∃ s : BotState, Reaches cfgEx s ∧ dlookup 2 s.sessions = some 1 ∧
      dlookup 2 s.history = none ∧
      step cfgEx s (Ev.msg 2 none "hi") = none := by
  refine ⟨⟨[(2, "Аноним")], [(1, 2), (2, 1)], [], [], []⟩, ?_, by decide, by decide,
    by decide⟩
  exact reaches_stepN cfgEx
    [Ev.cbUseAnonymous 2, Ev.cbMentorJoin 1, Ev.cbMentorEnd 1, Ev.cbMentorJoin 1]
    initState _ (by decide) (by decide) ReachUnder.init

end Mentoring
